import Mathlib

/-!
# Verification of the kube-sentry-events event pipeline

Shallow embedding of the core of `kube-sentry-events`:
* `internal/filter` (`Filter.ShouldProcess`, `Filter.MeetsThreshold`, `Filter.GetSeverity`),
* `internal/dedup` (`Deduplicator.Check`, `addEntry`, `cleanup`, `Size`),
* `internal/sentry` (`ExtractDeploymentName`),
* `internal/watcher` (`processEvent`),
* `internal/config` (threshold parsing inside `Load`).

Go strings are modelled as Lean `String`; Go maps (`map[string]T`) as association
lists `List (String × T)` whose operations (`mapLookup`, `mapErase`, `mapSet`)
give exactly map lookup / delete / insert semantics.  `time.Time` instants and
`time.Duration` values are modelled as unbounded `Int` (64-bit overflow is out of
reach for the quantities involved).  Go `int`/`int32` counters are modelled as
`Int`.
-/

namespace KubeSentry

/-! ## Go map operations on association lists -/

/-- Lookup in a Go map modelled as an association list (first matching key). -/
def mapLookup {α : Type} : List (String × α) → String → Option α
  | [], _ => none
  | p :: rest, k => if p.1 = k then some p.2 else mapLookup rest k

/-- `delete(m, k)` on a Go map modelled as an association list. -/
def mapErase {α : Type} (l : List (String × α)) (k : String) : List (String × α) :=
  l.filter (fun p => p.1 ≠ k)

/-- `m[k] = v` on a Go map modelled as an association list. -/
def mapSet {α : Type} (l : List (String × α)) (k : String) (v : α) : List (String × α) :=
  mapErase l k ++ [(k, v)]

/-! ## Character-level string helpers (Go `strings` package operations) -/

/-- `strings.Split(s, sep)` for a single-character separator, on `List Char`.
Like Go, splitting the empty string yields `[[]]`. -/
def splitOnChar (sep : Char) : List Char → List (List Char)
  | [] => [[]]
  | c :: rest =>
    match splitOnChar sep rest with
    | [] => [[]]
    | seg :: segs => if c = sep then [] :: seg :: segs else (c :: seg) :: segs

/-- `strings.Join(parts, "-")` on `List Char` segments. -/
def joinDash : List (List Char) → List Char
  | [] => []
  | [s] => s
  | s :: rest => s ++ '-' :: joinDash rest

/-- Unicode white space, exactly the `White_Space` code points recognised by
Go's `unicode.IsSpace` (used by `strings.TrimSpace`) and by the `fmt`
scanner's space table: U+0009–U+000D, U+0020, U+0085, U+00A0, U+1680,
U+2000–U+200A, U+2028, U+2029, U+202F, U+205F, U+3000. -/
def charIsSpace (c : Char) : Bool :=
  let n := c.toNat
  decide ((0x09 ≤ n ∧ n ≤ 0x0d) ∨ n = 0x20 ∨ n = 0x85 ∨ n = 0xa0 ∨ n = 0x1680 ∨
    (0x2000 ≤ n ∧ n ≤ 0x200a) ∨ n = 0x2028 ∨ n = 0x2029 ∨ n = 0x202f ∨
    n = 0x205f ∨ n = 0x3000)

/-- `strings.TrimSpace` on `List Char`. -/
def trimChars (l : List Char) : List Char :=
  ((l.dropWhile charIsSpace).reverse.dropWhile charIsSpace).reverse

/-- `strings.TrimSpace` on `String`. -/
def trimStr (s : String) : String :=
  String.mk (trimChars s.data)

/-- First occurrence split: `some (before, after)` around the first `sep`. -/
def splitFirst (sep : Char) : List Char → Option (List Char × List Char)
  | [] => none
  | c :: rest =>
    if c = sep then some ([], rest)
    else (splitFirst sep rest).map (fun p => (c :: p.1, p.2))

/-- `strings.SplitN(item, ":", 2)`: at most two pieces, split at the first colon. -/
def splitN2Colon (item : String) : List String :=
  match splitFirst ':' item.data with
  | none => [item]
  | some (a, b) => [String.mk a, String.mk b]

/-! ## Data model: the slice of `corev1.Event` the pipeline reads -/

/-- The fields of a Kubernetes `corev1.Event` that the pipeline reads.
`metadataNamespace` is `Event.Namespace` (object meta), `involvedNamespace`,
`involvedName` are `Event.InvolvedObject.Namespace/.Name`, `type` is the
event type string (`corev1.EventTypeWarning = "Warning"`), `count` the
cluster-reported `int32` occurrence count. -/
structure Event where
  metadataNamespace : String
  involvedNamespace : String
  involvedName : String
  reason : String
  type : String
  count : Int
  deriving Repr, DecidableEq

/-! ## `internal/filter` -/

/-- `filter.Filter`: namespace allow/deny sets, watched reasons, thresholds and
the severity map.  The Go sets (`map[string]struct{}` built by `toSet`) are
modelled by the underlying lists; only membership and emptiness are consulted,
which agree with the set semantics. -/
structure Filter where
  namespaces : List String
  excludeNamespaces : List String
  eventReasons : List String
  eventThresholds : List (String × Int)
  severityMap : List (String × String)
  deriving Repr, DecidableEq

/-- `filter.defaultSeverityMap` (sentry levels as their string values). -/
def defaultSeverityMap : List (String × String) :=
  [("OOMKilled", "error"), ("CrashLoopBackOff", "error"), ("FailedScheduling", "error"),
   ("Evicted", "error"), ("FailedMount", "error"), ("FailedAttachVolume", "error"),
   ("ImagePullBackOff", "error"), ("ErrImagePull", "error"), ("FailedCreate", "error"),
   ("Unhealthy", "warning"), ("BackOff", "warning"), ("Killing", "warning"),
   ("NodeNotReady", "warning"), ("FailedSync", "warning"),
   ("NodeReady", "info")]

/-- `filter.New`. -/
def filterNew (namespaces excludeNamespaces eventReasons : List String)
    (thresholds : List (String × Int)) : Filter :=
  { namespaces := namespaces
    excludeNamespaces := excludeNamespaces
    eventReasons := eventReasons
    eventThresholds := thresholds
    severityMap := defaultSeverityMap }

/-- The effective namespace: `event.InvolvedObject.Namespace`, falling back to
`event.Namespace` when empty (computed identically in `ShouldProcess` and
`processEvent`). -/
def effectiveNamespace (e : Event) : String :=
  if e.involvedNamespace = "" then e.metadataNamespace else e.involvedNamespace

/-- `Filter.ShouldProcess` (part_003 lines 32-62): namespace allow list (when
non-empty), namespace deny list, reason set, and the Warning type gate. -/
def ShouldProcess (f : Filter) (e : Event) : Bool :=
  let ns := effectiveNamespace e
  if f.namespaces ≠ [] ∧ ns ∉ f.namespaces then false
  else if ns ∈ f.excludeNamespaces then false
  else if e.reason ∉ f.eventReasons then false
  else if e.type ≠ "Warning" then false
  else true

/-- `Filter.MeetsThreshold` (part_003 lines 66-75): reason absent from the
thresholds map means allow; otherwise compare the event count. -/
def MeetsThreshold (f : Filter) (e : Event) : Bool :=
  match mapLookup f.eventThresholds e.reason with
  | none => true
  | some threshold => threshold ≤ e.count

/-- `Filter.GetSeverity`: severity map lookup with default `warning`. -/
def GetSeverity (f : Filter) (reason : String) : String :=
  match mapLookup f.severityMap reason with
  | some level => level
  | none => "warning"

/-! ## `internal/sentry`: `ExtractDeploymentName` -/

/-- `sentry.isAlphanumeric`: every rune is a lowercase ASCII letter or digit. -/
def isAlphanumeric (s : List Char) : Bool :=
  s.all (fun r => decide (('a' ≤ r ∧ r ≤ 'z') ∨ ('0' ≤ r ∧ r ≤ '9')))

/-- `sentry.ExtractDeploymentName` (part_005 lines 407-427): heuristically strip
the replicaset and pod hash suffixes from a pod name.  Segment lengths are
measured in characters; this agrees with Go's byte lengths on every input
because any segment containing a non-ASCII rune fails `isAlphanumeric`, and
then both versions return the pod name unchanged. -/
def ExtractDeploymentName (podName : String) : String :=
  let parts := splitOnChar '-' podName.data
  if parts.length < 3 then podName
  else
    let lastPart := parts.getLastD []
    let secondLastPart := parts.dropLast.getLastD []
    if lastPart.length ≤ 6 ∧ 5 ≤ secondLastPart.length ∧ secondLastPart.length ≤ 12 then
      if isAlphanumeric lastPart ∧ isAlphanumeric secondLastPart then
        String.mk (joinDash parts.dropLast.dropLast)
      else podName
    else podName

/-! ## `internal/dedup` -/

/-- `dedup.MaxEntries = 10000`. -/
def MaxEntries : Nat := 10000

/-- `dedup.entry`. -/
structure Entry where
  key : String
  expiresAt : Int
  count : Int
  firstSeen : Int
  lastSeen : Int
  deriving Repr, DecidableEq

/-- `dedup.Deduplicator` state: the window, the entries map, the insertion
`order` slice.  The mutex and the background goroutine are concurrency plumbing;
all mutations happen under one lock, so the state machine below (`Check` steps
and `cleanup` sweeps at caller-chosen times) is the full behaviour. -/
structure Deduplicator where
  window : Int
  entries : List (String × Entry)
  order : List String
  deriving Repr, DecidableEq

/-- `dedup.New` (the cache state; the sweeper goroutine is a `cleanup` step). -/
def dedupNew (window : Int) : Deduplicator :=
  { window := window, entries := [], order := [] }

/-- The eviction loop at the top of `addEntry`:
`for len(d.entries) >= MaxEntries && len(d.order) > 0 { pop order[0]; delete }`. -/
def evictOldest : List (String × Entry) → List String → List (String × Entry) × List String
  | entries, [] => (entries, [])
  | entries, o :: rest =>
    if MaxEntries ≤ entries.length then evictOldest (mapErase entries o) rest
    else (entries, o :: rest)

/-- `Deduplicator.addEntry` (dedup source lines 257-274). -/
def addEntry (d : Deduplicator) (key : String) (now : Int) : Deduplicator :=
  let p := evictOldest d.entries d.order
  let e : Entry := { key := key, expiresAt := now + d.window, count := 1,
                     firstSeen := now, lastSeen := now }
  { d with entries := mapSet p.1 key e, order := p.2 ++ [key] }

/-- The result quadruple of `Deduplicator.Check`. -/
structure CheckResult where
  isNew : Bool
  count : Int
  firstSeen : Int
  lastSeen : Int
  deriving Repr, DecidableEq

/-- `Deduplicator.Check` (dedup source lines 220-242), with the call time `now`
made explicit.  Fresh-entry path: a hit on an expired entry deletes it from the
map (leaving its key in `order`) and re-inserts through `addEntry`. -/
def Check (d : Deduplicator) (ns pod reason : String) (now : Int) :
    CheckResult × Deduplicator :=
  let key := ns ++ "/" ++ pod ++ "/" ++ reason
  match mapLookup d.entries key with
  | some e =>
    if now < e.expiresAt then
      let e2 : Entry := { e with count := e.count + 1, lastSeen := now,
                                 expiresAt := now + d.window }
      (⟨false, e2.count, e2.firstSeen, e2.lastSeen⟩,
       { d with entries := mapSet d.entries key e2 })
    else
      let d1 : Deduplicator := { d with entries := mapErase d.entries key }
      (⟨true, 1, now, now⟩, addEntry d1 key now)
  | none => (⟨true, 1, now, now⟩, addEntry d key now)

/-- The sweep loop body of `Deduplicator.cleanup` (dedup source lines 285-303):
walk `order`, keep live keys, delete expired entries. -/
def cleanupLoop (now : Int) :
    List (String × Entry) → List String → List (String × Entry) × List String
  | entries, [] => (entries, [])
  | entries, k :: rest =>
    match mapLookup entries k with
    | some e =>
      if now < e.expiresAt then
        let p := cleanupLoop now entries rest
        (p.1, k :: p.2)
      else cleanupLoop now (mapErase entries k) rest
    | none => cleanupLoop now entries rest

/-- `Deduplicator.cleanup` with the sweep time `now` made explicit. -/
def cleanup (d : Deduplicator) (now : Int) : Deduplicator :=
  let p := cleanupLoop now d.entries d.order
  { d with entries := p.1, order := p.2 }

/-- `Deduplicator.Size`. -/
def Size (d : Deduplicator) : Nat :=
  d.entries.length

/-- Every deduplicator state reachable by some interleaving of `Check` calls and
`cleanup` sweeps, at arbitrary times, starting from `New`. -/
inductive Reachable : Deduplicator → Prop
  | new (window : Int) : Reachable (dedupNew window)
  | check {d : Deduplicator} (ns pod reason : String) (now : Int) :
      Reachable d → Reachable (Check d ns pod reason now).2
  | sweep {d : Deduplicator} (now : Int) :
      Reachable d → Reachable (cleanup d now)

/-- Reachability with a non-negative window and a non-decreasing clock: the
second component is an upper bound for every operation time used so far. -/
inductive ReachableT : Deduplicator → Int → Prop
  | new (window : Int) (t0 : Int) (h : 0 ≤ window) : ReachableT (dedupNew window) t0
  | check {d : Deduplicator} {t : Int} (ns pod reason : String) (now : Int)
      (h : t ≤ now) : ReachableT d t → ReachableT (Check d ns pod reason now).2 now
  | sweep {d : Deduplicator} {t : Int} (now : Int) (h : t ≤ now) :
      ReachableT d t → ReachableT (cleanup d now) now

/-- Every key that is live in the entries map occurs in the `order` slice
(`order` may additionally hold stale keys; `Check`'s expiry-on-access path
deletes from the map without touching `order`). -/
def KeysInOrder (entries : List (String × Entry)) (order : List String) : Prop :=
  ∀ k, mapLookup entries k ≠ none → k ∈ order

/-- The structural invariant behind the capacity bound. -/
def DedupInv (d : Deduplicator) : Prop :=
  Size d ≤ MaxEntries ∧ KeysInOrder d.entries d.order

/-- Well-formedness of every live entry at clock bound `t`:
`firstSeen ≤ lastSeen ≤ expiresAt`, `count ≥ 1`, and `lastSeen` never ahead of
the clock. -/
def EntriesWF (d : Deduplicator) (t : Int) : Prop :=
  0 ≤ d.window ∧
  ∀ k e, mapLookup d.entries k = some e →
    e.firstSeen ≤ e.lastSeen ∧ e.lastSeen ≤ e.expiresAt ∧ 1 ≤ e.count ∧ e.lastSeen ≤ t

/-! ## `internal/watcher`: `processEvent` -/

/-- `sentry.EventData` as filled in by `processEvent` (the `Event` pointer plus
the derived fields; `MeetsThreshold` is the issue-creation flag
`shouldCreateIssue`). -/
structure EventData where
  event : Event
  severity : String
  count : Int
  firstSeen : Int
  lastSeen : Int
  meetsThreshold : Bool
  deriving Repr, DecidableEq

/-- `Watcher.processEvent` (watcher.go lines 127-194): filter, derive namespace
and deployment, evaluate threshold, always call `Check`, and hand the sender an
`EventData` whose flag is `meetsThreshold && isNew`.  Returns `none` and leaves
the cache untouched when the filter rejects the event. -/
def processEvent (f : Filter) (d : Deduplicator) (e : Event) (now : Int) :
    Option EventData × Deduplicator :=
  if ShouldProcess f e = false then (none, d)
  else
    let ns := effectiveNamespace e
    let podName := e.involvedName
    let reason := e.reason
    let deployment := ExtractDeploymentName podName
    let severity := GetSeverity f reason
    let meets := MeetsThreshold f e
    let r := Check d ns deployment reason now
    let shouldCreateIssue := meets && r.1.isNew
    (some { event := e, severity := severity, count := r.1.count,
            firstSeen := r.1.firstSeen, lastSeen := r.1.lastSeen,
            meetsThreshold := shouldCreateIssue }, r.2)

/-! ## A concrete eviction scenario

The following states drive the deduplicator to capacity with 10000 distinct
keys at time 0 (window 10), expire them, re-insert key 0 through the
expiry-on-access path of `Check` at time 10 (leaving the stale first
occurrence of key 0 at the head of `order`), and then `Check` a fresh key at
time 10, which triggers eviction. -/

/-- The `pod` component of the `n`-th scenario key: `n` copies of `a`. -/
def grpKey (n : Nat) : String := String.mk (List.replicate n 'a')

/-- The full dedup key built by `Check` for `("", grpKey n, "r")`. -/
def fullKey (n : Nat) : String := "" ++ "/" ++ grpKey n ++ "/" ++ "r"

/-- The state after `Check`-inserting keys `0 .. n-1` at time 0, window 10. -/
def fillState : Nat → Deduplicator
  | 0 => dedupNew 10
  | n + 1 => (Check (fillState n) "" (grpKey n) "r" 0).2

/-- The entries for keys `1 .. 9999` as they sit in the cache after filling. -/
def c8Tail : List (String × Entry) :=
  (List.range 9999).map
    (fun i => (fullKey (i + 1), (⟨fullKey (i + 1), 10, 1, 0, 0⟩ : Entry)))

/-! ## `internal/config`: threshold parsing inside `Load` -/

/-- `config.DefaultEventThresholds` (config.go lines 60-77). -/
def DefaultEventThresholds : List (String × Int) :=
  [("OOMKilled", 1), ("CrashLoopBackOff", 1), ("Evicted", 1), ("FailedScheduling", 1),
   ("FailedMount", 1), ("FailedAttachVolume", 1),
   ("Unhealthy", 5), ("BackOff", 3), ("ImagePullBackOff", 3), ("ErrImagePull", 2),
   ("FailedCreate", 2)]

/-- `config.splitAndTrim`: split on commas, trim each piece, drop empties. -/
def splitAndTrim (s : String) : List String :=
  ((splitOnChar ',' s.data).map trimChars).filterMap
    (fun l => if l = [] then none else some (String.mk l))

/-- Value of a decimal digit run. -/
def digitsVal (l : List Char) : Int :=
  l.foldl (fun a c => a * 10 + ((c.toNat : Int) - ('0'.toNat : Int))) 0

/-- `config.parseThreshold` (config.go lines 143-150): `fmt.Sscanf(s, "%d")`
into an `int32`.  `Sscanf` skips leading white space (the same Unicode
`White_Space` set as `charIsSpace`), accepts an optional sign and a non-empty
digit run, ignores trailing input, and fails on overflow of `int32`;
`parseThreshold` maps any failure to an error. -/
def parseThreshold (s : String) : Except String Int :=
  let l := s.data.dropWhile charIsSpace
  let signed : Bool × List Char :=
    match l with
    | '-' :: r => (true, r)
    | '+' :: r => (false, r)
    | _ => (false, l)
  let digits := signed.2.takeWhile (fun c => c.isDigit)
  if digits = [] then .error ("expected integer, got " ++ s)
  else
    let v : Int := if signed.1 then -(digitsVal digits) else digitsVal digits
    if v < -(2 ^ 31) ∨ 2 ^ 31 ≤ v then .error ("expected integer, got " ++ s)
    else .ok v

/-- The body of the threshold loop in `config.Load` (config.go lines 113-126):
items that split into two pieces at a colon are parsed and merged into the
accumulator; items without a colon are passed over; a parse failure aborts with
an error. -/
def applyThresholdItems :
    List (String × Int) → List String → Except String (List (String × Int))
  | acc, [] => .ok acc
  | acc, item :: rest =>
    match splitN2Colon item with
    | [p0, p1] =>
      let reason := trimStr p0
      let countStr := trimStr p1
      match parseThreshold countStr with
      | .error e => .error ("invalid threshold for " ++ reason ++ ": " ++ e)
      | .ok c => applyThresholdItems (mapSet acc reason c) rest
    | _ => applyThresholdItems acc rest

/-- The `KUBE_SENTRY_THRESHOLDS` handling of `config.Load` (config.go lines
112-126): start from the defaults and merge the environment items; an error
here makes `Load` return `(nil, err)` — no configuration. -/
def loadEventThresholds (env : String) : Except String (List (String × Int)) :=
  if env = "" then .ok DefaultEventThresholds
  else applyThresholdItems DefaultEventThresholds (splitAndTrim env)

/-! ## Association-list map lemmas -/

theorem mapLookup_append {α : Type} (a b : List (String × α)) (k : String) :
    mapLookup (a ++ b) k =
      match mapLookup a k with
      | some v => some v
      | none => mapLookup b k := by
  induction a with
  | nil => simp [mapLookup]
  | cons p rest ih =>
    by_cases h : p.1 = k <;> simp [mapLookup, h, ih]

theorem mapErase_cons {α : Type} (p : String × α) (rest : List (String × α)) (k : String) :
    mapErase (p :: rest) k =
      if p.1 = k then mapErase rest k else p :: mapErase rest k := by
  by_cases h : p.1 = k <;> simp [mapErase, List.filter_cons, h]

theorem mapLookup_mapErase_self {α : Type} (l : List (String × α)) (k : String) :
    mapLookup (mapErase l k) k = none := by
  induction l with
  | nil => simp [mapErase, mapLookup]
  | cons p rest ih =>
    rw [mapErase_cons]
    by_cases h : p.1 = k
    · rw [if_pos h]; exact ih
    · rw [if_neg h]; simp [mapLookup, h, ih]

theorem mapLookup_mapErase_ne {α : Type} (l : List (String × α)) (k k' : String)
    (h : k' ≠ k) : mapLookup (mapErase l k) k' = mapLookup l k' := by
  induction l with
  | nil => simp [mapErase]
  | cons p rest ih =>
    rw [mapErase_cons]
    by_cases hp : p.1 = k
    · rw [if_pos hp, ih]
      have hne : ¬p.1 = k' := by rw [hp]; exact fun hk => h hk.symm
      simp [mapLookup, hne]
    · rw [if_neg hp]
      by_cases hk' : p.1 = k' <;> simp [mapLookup, hk', ih]

theorem mapLookup_mapSet_self {α : Type} (l : List (String × α)) (k : String) (v : α) :
    mapLookup (mapSet l k v) k = some v := by
  rw [mapSet, mapLookup_append, mapLookup_mapErase_self]
  simp [mapLookup]

theorem mapLookup_mapSet_ne {α : Type} (l : List (String × α)) (k k' : String) (v : α)
    (h : k' ≠ k) : mapLookup (mapSet l k v) k' = mapLookup l k' := by
  rw [mapSet, mapLookup_append, mapLookup_mapErase_ne l k k' h]
  cases hl : mapLookup l k' with
  | some w => rfl
  | none => simp [mapLookup, Ne.symm h]

theorem mapErase_length_le {α : Type} (l : List (String × α)) (k : String) :
    (mapErase l k).length ≤ l.length :=
  List.length_filter_le _ l

theorem mapErase_length_lt {α : Type} (l : List (String × α)) (k : String) (v : α)
    (h : mapLookup l k = some v) : (mapErase l k).length + 1 ≤ l.length := by
  induction l with
  | nil => simp [mapLookup] at h
  | cons p rest ih =>
    rw [mapErase_cons]
    by_cases hp : p.1 = k
    · rw [if_pos hp]
      have := mapErase_length_le rest k
      simp only [List.length_cons]
      omega
    · rw [if_neg hp]
      simp only [mapLookup, hp, if_false] at h
      have := ih h
      simp only [List.length_cons]
      omega

theorem mapSet_length_le {α : Type} (l : List (String × α)) (k : String) (v : α) :
    (mapSet l k v).length ≤ l.length + 1 := by
  have := mapErase_length_le l k
  simp only [mapSet, List.length_append, List.length_cons, List.length_nil]
  omega

theorem mapLookup_mapSet_cases {α : Type} (l : List (String × α)) (key k : String)
    (v w : α) (h : mapLookup (mapSet l key v) k = some w) :
    (k = key ∧ w = v) ∨ mapLookup l k = some w := by
  by_cases hk : k = key
  · subst hk
    rw [mapLookup_mapSet_self] at h
    exact Or.inl ⟨rfl, (Option.some_injective _ h).symm⟩
  · rw [mapLookup_mapSet_ne _ _ _ _ hk] at h
    exact Or.inr h

theorem mapLookup_mapErase_cases {α : Type} (l : List (String × α)) (key k : String)
    (w : α) (h : mapLookup (mapErase l key) k = some w) : mapLookup l k = some w := by
  by_cases hk : k = key
  · subst hk; rw [mapLookup_mapErase_self] at h; cases h
  · rwa [mapLookup_mapErase_ne _ _ _ hk] at h

theorem keysInOrder_nil (entries : List (String × Entry))
    (h : KeysInOrder entries []) : entries = [] := by
  cases entries with
  | nil => rfl
  | cons p rest =>
    exact absurd (h p.1 (by simp [mapLookup])) (List.not_mem_nil _)

theorem evictOldest_lookup (order : List String) (entries : List (String × Entry))
    (k : String) (v : Entry)
    (h : mapLookup (evictOldest entries order).1 k = some v) :
    mapLookup entries k = some v := by
  induction order generalizing entries with
  | nil => exact h
  | cons o rest ih =>
    unfold evictOldest at h
    by_cases hc : MaxEntries ≤ entries.length
    · rw [if_pos hc] at h
      exact mapLookup_mapErase_cases _ _ _ _ (ih _ h)
    · rwa [if_neg hc] at h

theorem evictOldest_spec (order : List String) (entries : List (String × Entry))
    (h : KeysInOrder entries order) :
    KeysInOrder (evictOldest entries order).1 (evictOldest entries order).2 ∧
    (evictOldest entries order).1.length < MaxEntries := by
  induction order generalizing entries with
  | nil =>
    have he := keysInOrder_nil entries h
    subst he
    exact ⟨h, by simp [evictOldest, MaxEntries]⟩
  | cons o rest ih =>
    unfold evictOldest
    by_cases hc : MaxEntries ≤ entries.length
    · rw [if_pos hc]
      refine ih (mapErase entries o) ?_
      intro k hk
      by_cases hko : k = o
      · subst hko; rw [mapLookup_mapErase_self] at hk; exact absurd rfl hk
      · rw [mapLookup_mapErase_ne _ _ _ hko] at hk
        rcases List.mem_cons.mp (h k hk) with rfl | hmem
        · exact absurd rfl hko
        · exact hmem
    · rw [if_neg hc]
      refine ⟨h, ?_⟩
      show entries.length < MaxEntries
      omega

theorem addEntry_inv (d : Deduplicator) (key : String) (now : Int)
    (h : KeysInOrder d.entries d.order) :
    Size (addEntry d key now) ≤ MaxEntries ∧
    KeysInOrder (addEntry d key now).entries (addEntry d key now).order := by
  obtain ⟨hko, hlen⟩ := evictOldest_spec d.order d.entries h
  constructor
  · have := mapSet_length_le (evictOldest d.entries d.order).1 key
      (⟨key, now + d.window, 1, now, now⟩ : Entry)
    simp only [Size, addEntry]
    omega
  · intro k hk
    simp only [addEntry] at hk ⊢
    by_cases hkey : k = key
    · subst hkey; exact List.mem_append.mpr (Or.inr (by simp))
    · rw [mapLookup_mapSet_ne _ _ _ _ hkey] at hk
      exact List.mem_append.mpr (Or.inl (hko k hk))

theorem addEntry_lookup (d : Deduplicator) (key : String) (now : Int)
    (k : String) (v : Entry)
    (h : mapLookup (addEntry d key now).entries k = some v) :
    (k = key ∧ v = ⟨key, now + d.window, 1, now, now⟩) ∨
    mapLookup d.entries k = some v := by
  simp only [addEntry] at h
  rcases mapLookup_mapSet_cases _ _ _ _ _ h with ⟨rfl, rfl⟩ | hother
  · exact Or.inl ⟨rfl, rfl⟩
  · exact Or.inr (evictOldest_lookup _ _ _ _ hother)

theorem check_inv (d : Deduplicator) (ns pod reason : String) (now : Int)
    (h : DedupInv d) : DedupInv (Check d ns pod reason now).2 := by
  obtain ⟨hsize, hko⟩ := h
  cases hl : mapLookup d.entries (ns ++ "/" ++ pod ++ "/" ++ reason) with
  | some e =>
    by_cases hexp : now < e.expiresAt
    · have hc : (Check d ns pod reason now).2 =
          { d with entries := (mapSet d.entries (ns ++ "/" ++ pod ++ "/" ++ reason) ({ e with count := e.count + 1, lastSeen := now, expiresAt := now + d.window })) } := by
        simp only [Check, hl, if_pos hexp]
      rw [hc]
      constructor
      · have h1 := mapErase_length_lt d.entries (ns ++ "/" ++ pod ++ "/" ++ reason) e hl
        show (mapSet d.entries (ns ++ "/" ++ pod ++ "/" ++ reason)
          ({ e with count := e.count + 1, lastSeen := now, expiresAt := now + d.window })).length ≤ MaxEntries
        simp only [Size] at hsize
        simp only [mapSet, List.length_append, List.length_cons, List.length_nil]
        omega
      · intro k hk
        show k ∈ d.order
        have hk' : mapLookup (mapSet d.entries (ns ++ "/" ++ pod ++ "/" ++ reason)
            ({ e with count := e.count + 1, lastSeen := now, expiresAt := now + d.window })) k ≠ none := hk
        by_cases hkey : k = ns ++ "/" ++ pod ++ "/" ++ reason
        · subst hkey; exact hko _ (by rw [hl]; simp)
        · rw [mapLookup_mapSet_ne _ _ _ _ hkey] at hk'
          exact hko k hk'
    · have hc : (Check d ns pod reason now).2 =
          addEntry ({ d with entries := (mapErase d.entries (ns ++ "/" ++ pod ++ "/" ++ reason)) })
            (ns ++ "/" ++ pod ++ "/" ++ reason) now := by
        simp only [Check, hl, if_neg hexp]
      rw [hc]
      have herase : KeysInOrder (mapErase d.entries (ns ++ "/" ++ pod ++ "/" ++ reason)) d.order := by
        intro k hk
        by_cases hkey : k = ns ++ "/" ++ pod ++ "/" ++ reason
        · subst hkey; rw [mapLookup_mapErase_self] at hk; exact absurd rfl hk
        · rw [mapLookup_mapErase_ne _ _ _ hkey] at hk; exact hko k hk
      exact addEntry_inv _ _ _ herase
  | none =>
    have hc : (Check d ns pod reason now).2 =
        addEntry d (ns ++ "/" ++ pod ++ "/" ++ reason) now := by
      simp only [Check, hl]
    rw [hc]
    exact addEntry_inv _ _ _ hko

theorem cleanupLoop_spec (now : Int) (order : List String)
    (entries : List (String × Entry)) :
    (∀ k v, mapLookup (cleanupLoop now entries order).1 k = some v →
      mapLookup entries k = some v) ∧
    (cleanupLoop now entries order).1.length ≤ entries.length ∧
    (∀ k, k ∈ order → mapLookup (cleanupLoop now entries order).1 k ≠ none →
      k ∈ (cleanupLoop now entries order).2) := by
  induction order generalizing entries with
  | nil =>
    exact ⟨fun k v h => h, le_refl _, fun k hk => absurd hk (List.not_mem_nil _)⟩
  | cons key rest ih =>
    cases hl : mapLookup entries key with
    | some e =>
      by_cases hexp : now < e.expiresAt
      · have hc : cleanupLoop now entries (key :: rest) =
            ((cleanupLoop now entries rest).1, key :: (cleanupLoop now entries rest).2) := by
          simp only [cleanupLoop, hl, if_pos hexp]
        rw [hc]
        obtain ⟨ihpres, ihlen, ihmem⟩ := ih entries
        refine ⟨ihpres, ihlen, ?_⟩
        intro k hk hk'
        rcases List.mem_cons.mp hk with rfl | hmem
        · exact List.mem_cons_self _ _
        · exact List.mem_cons_of_mem _ (ihmem k hmem hk')
      · have hc : cleanupLoop now entries (key :: rest) =
            cleanupLoop now (mapErase entries key) rest := by
          simp only [cleanupLoop, hl, if_neg hexp]
        rw [hc]
        obtain ⟨ihpres, ihlen, ihmem⟩ := ih (mapErase entries key)
        have hpres : ∀ k v,
            mapLookup (cleanupLoop now (mapErase entries key) rest).1 k = some v →
            mapLookup entries k = some v :=
          fun k v h => mapLookup_mapErase_cases _ _ _ _ (ihpres k v h)
        refine ⟨hpres, ?_, ?_⟩
        · have := mapErase_length_le entries key
          omega
        · intro k hk hk'
          rcases List.mem_cons.mp hk with hEq | hmem
          · exfalso
            rw [hEq] at hk'
            cases hcl : mapLookup (cleanupLoop now (mapErase entries key) rest).1 key with
            | none => exact hk' hcl
            | some v =>
              have h2 := ihpres key v hcl
              rw [mapLookup_mapErase_self] at h2
              cases h2
          · exact ihmem k hmem hk'
    | none =>
      have hc : cleanupLoop now entries (key :: rest) = cleanupLoop now entries rest := by
        simp only [cleanupLoop, hl]
      rw [hc]
      obtain ⟨ihpres, ihlen, ihmem⟩ := ih entries
      refine ⟨ihpres, ihlen, ?_⟩
      intro k hk hk'
      rcases List.mem_cons.mp hk with hEq | hmem
      · exfalso
        rw [hEq] at hk'
        cases hcl : mapLookup (cleanupLoop now entries rest).1 key with
        | none => exact hk' hcl
        | some v => rw [ihpres key v hcl] at hl; cases hl
      · exact ihmem k hmem hk'

theorem cleanup_inv (d : Deduplicator) (now : Int) (h : DedupInv d) :
    DedupInv (cleanup d now) := by
  obtain ⟨hsize, hko⟩ := h
  obtain ⟨hpres, hlen, hmem⟩ := cleanupLoop_spec now d.order d.entries
  constructor
  · simp only [Size, cleanup]
    exact le_trans hlen hsize
  · intro k hk
    simp only [cleanup] at hk ⊢
    have hin : mapLookup d.entries k ≠ none := by
      cases hcl : mapLookup (cleanupLoop now d.entries d.order).1 k with
      | none => exact absurd hcl hk
      | some v => rw [hpres k v hcl]; simp
    exact hmem k (hko k hin) hk

theorem reachable_inv (d : Deduplicator) (h : Reachable d) : DedupInv d := by
  induction h with
  | new window =>
    exact ⟨by simp [Size, dedupNew, MaxEntries], fun k hk => absurd rfl hk⟩
  | check ns pod reason now _ ih => exact check_inv _ _ _ _ _ ih
  | sweep now _ ih => exact cleanup_inv _ _ ih

theorem check_wf (d : Deduplicator) (ns pod reason : String) (now t : Int)
    (hwf : EntriesWF d t) (hle : t ≤ now) :
    EntriesWF (Check d ns pod reason now).2 now := by
  obtain ⟨hwin, hent⟩ := hwf
  cases hl : mapLookup d.entries (ns ++ "/" ++ pod ++ "/" ++ reason) with
  | some e =>
    by_cases hexp : now < e.expiresAt
    · have hc : (Check d ns pod reason now).2 =
          { d with entries := (mapSet d.entries (ns ++ "/" ++ pod ++ "/" ++ reason) ({ e with count := e.count + 1, lastSeen := now, expiresAt := now + d.window })) } := by
        simp only [Check, hl, if_pos hexp]
      rw [hc]
      refine ⟨hwin, ?_⟩
      intro k e' hk
      rcases mapLookup_mapSet_cases _ _ _ _ _ hk with ⟨hkEq, hvEq⟩ | hold
      · obtain ⟨h1, h2, h3, h4⟩ := hent _ e hl
        subst hvEq
        refine ⟨?_, ?_, ?_, ?_⟩ <;> simp only [] <;> omega
      · obtain ⟨h1, h2, h3, h4⟩ := hent k e' hold
        exact ⟨h1, h2, h3, by omega⟩
    · have hc : (Check d ns pod reason now).2 =
          addEntry ({ d with entries := (mapErase d.entries (ns ++ "/" ++ pod ++ "/" ++ reason)) })
            (ns ++ "/" ++ pod ++ "/" ++ reason) now := by
        simp only [Check, hl, if_neg hexp]
      rw [hc]
      refine ⟨hwin, ?_⟩
      intro k e' hk
      rcases addEntry_lookup _ _ _ _ _ hk with ⟨hkEq, hvEq⟩ | hold
      · subst hvEq
        refine ⟨le_refl _, ?_, le_refl _, le_refl _⟩
        show now ≤ now + d.window
        omega
      · have hold' := mapLookup_mapErase_cases _ _ _ _ hold
        obtain ⟨h1, h2, h3, h4⟩ := hent k e' hold'
        exact ⟨h1, h2, h3, by omega⟩
  | none =>
    have hc : (Check d ns pod reason now).2 =
        addEntry d (ns ++ "/" ++ pod ++ "/" ++ reason) now := by
      simp only [Check, hl]
    rw [hc]
    refine ⟨hwin, ?_⟩
    intro k e' hk
    rcases addEntry_lookup _ _ _ _ _ hk with ⟨hkEq, hvEq⟩ | hold
    · subst hvEq
      refine ⟨le_refl _, ?_, le_refl _, le_refl _⟩
      show now ≤ now + d.window
      omega
    · obtain ⟨h1, h2, h3, h4⟩ := hent k e' hold
      exact ⟨h1, h2, h3, by omega⟩

theorem cleanup_wf (d : Deduplicator) (now t : Int) (hwf : EntriesWF d t)
    (hle : t ≤ now) : EntriesWF (cleanup d now) now := by
  obtain ⟨hwin, hent⟩ := hwf
  obtain ⟨hpres, _, _⟩ := cleanupLoop_spec now d.order d.entries
  refine ⟨hwin, ?_⟩
  intro k e hk
  obtain ⟨h1, h2, h3, h4⟩ := hent k e (hpres k e hk)
  exact ⟨h1, h2, h3, by omega⟩

theorem reachableT_wf (d : Deduplicator) (t : Int) (h : ReachableT d t) :
    EntriesWF d t := by
  induction h with
  | new window t0 hw =>
    exact ⟨hw, fun k e hk => by simp [dedupNew, mapLookup] at hk⟩
  | check ns pod reason now hle _ ih => exact check_wf _ _ _ _ _ _ ih hle
  | sweep now hle _ ih => exact cleanup_wf _ _ _ ih hle

/-! ## Lemmas for the eviction scenario -/

theorem str_data_append (s t : String) : (s ++ t).data = s.data ++ t.data := by
  cases s; cases t; rfl

theorem fullKey_data (n : Nat) :
    (fullKey n).data = '/' :: (List.replicate n 'a' ++ ['/', 'r']) := by
  simp [fullKey, grpKey, str_data_append]

theorem fullKey_inj {m n : Nat} (h : fullKey m = fullKey n) : m = n := by
  have hd := congrArg (fun s => s.data.length) h
  simp only [fullKey_data, List.length_cons, List.length_append,
    List.length_replicate] at hd
  omega

theorem fullKey_ne_bs (i : Nat) : fullKey i ≠ "" ++ "/" ++ "b" ++ "/" ++ "s" := by
  intro h
  have hd := congrArg String.data h
  rw [fullKey_data] at hd
  have hbs : ("" ++ "/" ++ "b" ++ "/" ++ "s" : String).data = ['/', 'b', '/', 's'] := rfl
  rw [hbs] at hd
  have htl : List.replicate i 'a' ++ ['/', 'r'] = ['b', '/', 's'] :=
    (List.cons.injEq _ _ _ _).mp hd |>.2
  have hlen := congrArg List.length htl
  simp only [List.length_append, List.length_replicate, List.length_cons,
    List.length_nil] at hlen
  have hi : i = 1 := by omega
  subst hi
  simp [List.replicate] at htl

theorem mapLookup_eq_none_of_forall {α : Type} (l : List (String × α)) (k : String)
    (h : ∀ p ∈ l, p.1 ≠ k) : mapLookup l k = none := by
  induction l with
  | nil => rfl
  | cons p rest ih =>
    have hp := h p (List.mem_cons_self _ _)
    simp only [mapLookup, hp, if_false]
    exact ih (fun q hq => h q (List.mem_cons_of_mem _ hq))

theorem mapErase_eq_self_of_forall {α : Type} (l : List (String × α)) (k : String)
    (h : ∀ p ∈ l, p.1 ≠ k) : mapErase l k = l := by
  induction l with
  | nil => rfl
  | cons p rest ih =>
    rw [mapErase_cons, if_neg (h p (List.mem_cons_self _ _))]
    rw [ih (fun q hq => h q (List.mem_cons_of_mem _ hq))]

theorem evictOldest_noop (entries : List (String × Entry)) (order : List String)
    (h : entries.length < MaxEntries) : evictOldest entries order = (entries, order) := by
  cases order with
  | nil => rfl
  | cons o rest =>
    unfold evictOldest
    rw [if_neg (by omega)]

theorem Check_hit_eq (d : Deduplicator) (ns pod reason : String) (now : Int)
    (e : Entry) (hl : mapLookup d.entries (ns ++ "/" ++ pod ++ "/" ++ reason) = some e)
    (hexp : now < e.expiresAt) :
    Check d ns pod reason now =
      (⟨false, e.count + 1, e.firstSeen, now⟩,
       { d with entries := (mapSet d.entries (ns ++ "/" ++ pod ++ "/" ++ reason) ({ e with count := e.count + 1, lastSeen := now, expiresAt := now + d.window })) }) := by
  simp only [Check, hl, if_pos hexp]

theorem Check_expired_eq (d : Deduplicator) (ns pod reason : String) (now : Int)
    (e : Entry) (hl : mapLookup d.entries (ns ++ "/" ++ pod ++ "/" ++ reason) = some e)
    (hexp : ¬now < e.expiresAt) :
    Check d ns pod reason now =
      (⟨true, 1, now, now⟩,
       addEntry ({ d with entries := (mapErase d.entries (ns ++ "/" ++ pod ++ "/" ++ reason)) })
         (ns ++ "/" ++ pod ++ "/" ++ reason) now) := by
  simp only [Check, hl, if_neg hexp]

theorem Check_miss_eq (d : Deduplicator) (ns pod reason : String) (now : Int)
    (hl : mapLookup d.entries (ns ++ "/" ++ pod ++ "/" ++ reason) = none) :
    Check d ns pod reason now =
      (⟨true, 1, now, now⟩, addEntry d (ns ++ "/" ++ pod ++ "/" ++ reason) now) := by
  simp only [Check, hl]

theorem upd_entries_window (d : Deduplicator) (E : List (String × Entry)) :
    ({ d with entries := E } : Deduplicator).window = d.window := rfl

theorem upd_entries_entries (d : Deduplicator) (E : List (String × Entry)) :
    ({ d with entries := E } : Deduplicator).entries = E := rfl

theorem upd_entries_order (d : Deduplicator) (E : List (String × Entry)) :
    ({ d with entries := E } : Deduplicator).order = d.order := rfl

theorem fullKey_eq (n : Nat) : "" ++ "/" ++ grpKey n ++ "/" ++ "r" = fullKey n := rfl

theorem addEntry_entries (d : Deduplicator) (key : String) (now : Int) :
    (addEntry d key now).entries =
      mapSet (evictOldest d.entries d.order).1 key
        ⟨key, now + d.window, 1, now, now⟩ := rfl

theorem addEntry_order (d : Deduplicator) (key : String) (now : Int) :
    (addEntry d key now).order = (evictOldest d.entries d.order).2 ++ [key] := rfl

theorem addEntry_window (d : Deduplicator) (key : String) (now : Int) :
    (addEntry d key now).window = d.window := rfl

theorem fillState_reachable (n : Nat) : Reachable (fillState n) := by
  induction n with
  | zero => exact Reachable.new 10
  | succ n ih => exact Reachable.check "" (grpKey n) "r" 0 ih

theorem fillState_spec (n : Nat) (h : n ≤ MaxEntries) :
    (fillState n).window = 10 ∧
    (fillState n).entries =
      (List.range n).map (fun i => (fullKey i, (⟨fullKey i, 10, 1, 0, 0⟩ : Entry))) ∧
    (fillState n).order = (List.range n).map fullKey := by
  induction n with
  | zero => exact ⟨rfl, rfl, rfl⟩
  | succ n ih =>
    obtain ⟨hw, he, ho⟩ := ih (by omega)
    have hfresh : ∀ p ∈ (List.range n).map
        (fun i => (fullKey i, (⟨fullKey i, 10, 1, 0, 0⟩ : Entry))),
        p.1 ≠ "" ++ "/" ++ grpKey n ++ "/" ++ "r" := by
      intro p hp
      obtain ⟨i, hi, rfl⟩ := List.mem_map.mp hp
      have hilt := List.mem_range.mp hi
      show fullKey i ≠ fullKey n
      intro heq
      have := fullKey_inj heq
      omega
    have hnone : mapLookup (fillState n).entries
        ("" ++ "/" ++ grpKey n ++ "/" ++ "r") = none := by
      rw [he]
      exact mapLookup_eq_none_of_forall _ _ hfresh
    have hstep : fillState (n + 1) =
        addEntry (fillState n) ("" ++ "/" ++ grpKey n ++ "/" ++ "r") 0 := by
      show (Check (fillState n) "" (grpKey n) "r" 0).2 = _
      simp only [Check, hnone]
    have hlen : (fillState n).entries.length < MaxEntries := by
      rw [he]
      simp only [List.length_map, List.length_range]
      have : MaxEntries = 10000 := rfl
      omega
    have hnoop := evictOldest_noop (fillState n).entries (fillState n).order hlen
    rw [hstep]
    refine ⟨?_, ?_, ?_⟩
    · simp only [addEntry, hnoop]
      exact hw
    · simp only [addEntry, hnoop]
      rw [he, hw, mapSet, mapErase_eq_self_of_forall _ _ hfresh]
      rw [List.range_succ, List.map_append]
      simp only [List.map_cons, List.map_nil, fullKey]
      norm_num
    · simp only [addEntry, hnoop]
      rw [ho, List.range_succ, List.map_append]
      simp only [List.map_cons, List.map_nil, fullKey]

theorem mapErase_append {α : Type} (a b : List (String × α)) (k : String) :
    mapErase (a ++ b) k = mapErase a k ++ mapErase b k := by
  simp [mapErase, List.filter_append]

theorem mapLookup_cons_self {α : Type} (k : String) (v : α)
    (rest : List (String × α)) (k' : String) (h : k = k') :
    mapLookup ((k, v) :: rest) k' = some v := by
  subst h
  simp [mapLookup]

theorem c8Tail_ne_zero : ∀ p ∈ c8Tail, p.1 ≠ fullKey 0 := by
  intro p hp
  obtain ⟨i, hi, rfl⟩ := List.mem_map.mp hp
  show fullKey (i + 1) ≠ fullKey 0
  intro heq
  exact absurd (fullKey_inj heq) (by omega)

theorem c8Tail_ne_bs : ∀ p ∈ c8Tail, p.1 ≠ "" ++ "/" ++ "b" ++ "/" ++ "s" := by
  intro p hp
  obtain ⟨i, hi, rfl⟩ := List.mem_map.mp hp
  exact fullKey_ne_bs (i + 1)

theorem c8Tail_length : c8Tail.length = 9999 := by
  simp [c8Tail]

theorem c8Tail_head : c8Tail =
    (fullKey 1, (⟨fullKey 1, 10, 1, 0, 0⟩ : Entry)) ::
      (List.range 9998).map
        (fun i => (fullKey (i + 2), (⟨fullKey (i + 2), 10, 1, 0, 0⟩ : Entry))) := by
  rw [c8Tail, show (9999 : Nat) = 9998 + 1 from rfl, List.range_succ_eq_map,
    List.map_cons, List.map_map]
  rfl

theorem fillMap_cons :
    (List.range MaxEntries).map
        (fun i => (fullKey i, (⟨fullKey i, 10, 1, 0, 0⟩ : Entry))) =
      (fullKey 0, (⟨fullKey 0, 10, 1, 0, 0⟩ : Entry)) :: c8Tail := by
  rw [show MaxEntries = 9999 + 1 from rfl, List.range_succ_eq_map,
    List.map_cons, List.map_map]
  rfl

theorem fillOrder_cons :
    (List.range MaxEntries).map fullKey =
      fullKey 0 :: (List.range 9999).map (fun i => fullKey (i + 1)) := by
  rw [show MaxEntries = 9999 + 1 from rfl, List.range_succ_eq_map,
    List.map_cons, List.map_map]
  rfl

theorem c8Tail_look1 : mapLookup c8Tail (fullKey 1) =
    some ⟨fullKey 1, 10, 1, 0, 0⟩ := by
  rw [c8Tail_head]
  exact mapLookup_cons_self _ _ _ _ rfl

theorem c8Tail_look0 : mapLookup c8Tail (fullKey 0) = none :=
  mapLookup_eq_none_of_forall _ _ c8Tail_ne_zero

theorem mapLookup_append_left {α : Type} (a b : List (String × α)) (k : String)
    (v : α) (ha : mapLookup a k = some v) : mapLookup (a ++ b) k = some v := by
  rw [mapLookup_append, ha]

theorem mapLookup_append_right {α : Type} (a b : List (String × α)) (k : String)
    (ha : mapLookup a k = none) : mapLookup (a ++ b) k = mapLookup b k := by
  rw [mapLookup_append, ha]

theorem evictOldest_cons_evict (entries : List (String × Entry)) (o : String)
    (rest : List String) (h : MaxEntries ≤ entries.length) :
    evictOldest entries (o :: rest) = evictOldest (mapErase entries o) rest := by
  unfold evictOldest
  rw [if_pos h]
  cases rest with
  | nil => rfl
  | cons a l => rfl

theorem eviction_oldest_violated (d0 : Deduplicator)
    (hw : d0.window = 10)
    (he : d0.entries = (List.range MaxEntries).map
      (fun i => (fullKey i, (⟨fullKey i, 10, 1, 0, 0⟩ : Entry))))
    (ho : d0.order = (List.range MaxEntries).map fullKey) :
    mapLookup (Check d0 "" (grpKey 0) "r" 10).2.entries (fullKey 0) =
      some ⟨fullKey 0, 20, 1, 10, 10⟩ ∧
    mapLookup (Check d0 "" (grpKey 0) "r" 10).2.entries (fullKey 1) =
      some ⟨fullKey 1, 10, 1, 0, 0⟩ ∧
    mapLookup (Check (Check d0 "" (grpKey 0) "r" 10).2 "" "b" "s" 10).2.entries
      (fullKey 0) = none ∧
    mapLookup (Check (Check d0 "" (grpKey 0) "r" 10).2 "" "b" "s" 10).2.entries
      (fullKey 1) = some ⟨fullKey 1, 10, 1, 0, 0⟩ := by
  have he1 : d0.entries = (fullKey 0, (⟨fullKey 0, 10, 1, 0, 0⟩ : Entry)) :: c8Tail := by
    rw [he, fillMap_cons]
  have hlook0 : mapLookup d0.entries ("" ++ "/" ++ grpKey 0 ++ "/" ++ "r") =
      some ⟨fullKey 0, 10, 1, 0, 0⟩ := by
    rw [he1]
    exact mapLookup_cons_self _ _ _ _ rfl
  have hA := Check_expired_eq d0 "" (grpKey 0) "r" 10 ⟨fullKey 0, 10, 1, 0, 0⟩
    hlook0 (by decide)
  simp only [fullKey_eq] at hA
  have herase : mapErase d0.entries (fullKey 0) = c8Tail := by
    rw [he1, mapErase_cons,
      if_pos (show ((fullKey 0, (⟨fullKey 0, 10, 1, 0, 0⟩ : Entry)).1 = fullKey 0) from rfl)]
    exact mapErase_eq_self_of_forall _ _ c8Tail_ne_zero
  have hAwin : (Check d0 "" (grpKey 0) "r" 10).2.window = 10 := by
    simp only [hA, addEntry_window, upd_entries_window]
    exact hw
  have hAent : (Check d0 "" (grpKey 0) "r" 10).2.entries =
      c8Tail ++ [(fullKey 0, (⟨fullKey 0, 20, 1, 10, 10⟩ : Entry))] := by
    simp only [hA, addEntry_entries, upd_entries_entries, upd_entries_order,
      upd_entries_window, herase]
    simp only [evictOldest_noop c8Tail d0.order (by rw [c8Tail_length]; decide)]
    simp only [hw, mapSet, mapErase_eq_self_of_forall c8Tail (fullKey 0) c8Tail_ne_zero]
    norm_num
  have hAord : (Check d0 "" (grpKey 0) "r" 10).2.order = d0.order ++ [fullKey 0] := by
    simp only [hA, addEntry_order, upd_entries_entries, upd_entries_order, herase]
    simp only [evictOldest_noop c8Tail d0.order (by rw [c8Tail_length]; decide)]
  have hAlook0 : mapLookup (Check d0 "" (grpKey 0) "r" 10).2.entries (fullKey 0) =
      some ⟨fullKey 0, 20, 1, 10, 10⟩ := by
    rw [hAent, mapLookup_append_right _ _ _ c8Tail_look0]
    exact mapLookup_cons_self _ _ _ _ rfl
  have hAlook1 : mapLookup (Check d0 "" (grpKey 0) "r" 10).2.entries (fullKey 1) =
      some ⟨fullKey 1, 10, 1, 0, 0⟩ := by
    rw [hAent]
    exact mapLookup_append_left _ _ _ _ c8Tail_look1
  have hlookB : mapLookup (Check d0 "" (grpKey 0) "r" 10).2.entries
      ("" ++ "/" ++ "b" ++ "/" ++ "s") = none := by
    rw [hAent]
    apply mapLookup_eq_none_of_forall
    intro p hp
    rcases List.mem_append.mp hp with h1 | h2
    · exact c8Tail_ne_bs p h1
    · rcases List.mem_singleton.mp h2 with rfl
      exact fullKey_ne_bs 0
  have hB := Check_miss_eq (Check d0 "" (grpKey 0) "r" 10).2 "" "b" "s" 10 hlookB
  have hAord2 : (Check d0 "" (grpKey 0) "r" 10).2.order =
      fullKey 0 :: ((List.range 9999).map (fun i => fullKey (i + 1)) ++ [fullKey 0]) := by
    rw [hAord, ho, fillOrder_cons]
    rfl
  have hAlen : (Check d0 "" (grpKey 0) "r" 10).2.entries.length = 10000 := by
    rw [hAent]
    simp [c8Tail_length]
  have herase2 : mapErase (Check d0 "" (grpKey 0) "r" 10).2.entries (fullKey 0) =
      c8Tail := by
    rw [hAent, mapErase_append, mapErase_eq_self_of_forall c8Tail (fullKey 0) c8Tail_ne_zero,
      mapErase_cons,
      if_pos (show ((fullKey 0, (⟨fullKey 0, 20, 1, 10, 10⟩ : Entry)).1 = fullKey 0) from rfl),
      show mapErase ([] : List (String × Entry)) (fullKey 0) = [] from rfl,
      List.append_nil]
  have hevict : evictOldest (Check d0 "" (grpKey 0) "r" 10).2.entries
      (Check d0 "" (grpKey 0) "r" 10).2.order =
      (c8Tail, (List.range 9999).map (fun i => fullKey (i + 1)) ++ [fullKey 0]) := by
    rw [hAord2, evictOldest_cons_evict _ _ _ (by rw [hAlen]; decide), herase2,
      evictOldest_noop _ _ (by rw [c8Tail_length]; decide)]
  have hBent : (Check (Check d0 "" (grpKey 0) "r" 10).2 "" "b" "s" 10).2.entries =
      c8Tail ++ [("" ++ "/" ++ "b" ++ "/" ++ "s",
        (⟨"" ++ "/" ++ "b" ++ "/" ++ "s", 20, 1, 10, 10⟩ : Entry))] := by
    simp only [hB, addEntry_entries, hevict]
    simp only [hAwin, mapSet,
      mapErase_eq_self_of_forall c8Tail ("" ++ "/" ++ "b" ++ "/" ++ "s") c8Tail_ne_bs]
    norm_num
  have hB0 : mapLookup (Check (Check d0 "" (grpKey 0) "r" 10).2 "" "b" "s" 10).2.entries
      (fullKey 0) = none := by
    rw [hBent]
    apply mapLookup_eq_none_of_forall
    intro p hp
    rcases List.mem_append.mp hp with h1 | h2
    · exact c8Tail_ne_zero p h1
    · rcases List.mem_singleton.mp h2 with rfl
      exact Ne.symm (fullKey_ne_bs 0)
  have hB1 : mapLookup (Check (Check d0 "" (grpKey 0) "r" 10).2 "" "b" "s" 10).2.entries
      (fullKey 1) = some ⟨fullKey 1, 10, 1, 0, 0⟩ := by
    rw [hBent]
    exact mapLookup_append_left _ _ _ _ c8Tail_look1
  exact ⟨hAlook0, hAlook1, hB0, hB1⟩

/-! ## Claim theorems -/

/-- C3: `Filter.ShouldProcess e` is true iff all four conditions hold: the
effective namespace is in the allow set whenever that set is non-empty, the
effective namespace is not in the deny set, the reason is watched, and the
event type is `Warning` (so every non-Warning event is rejected). -/
theorem shouldProcess_iff (f : Filter) (e : Event) :
    ShouldProcess f e = true ↔
      ((f.namespaces ≠ [] → effectiveNamespace e ∈ f.namespaces) ∧
        effectiveNamespace e ∉ f.excludeNamespaces ∧
        e.reason ∈ f.eventReasons ∧
        e.type = "Warning") := by
  unfold ShouldProcess
  split_ifs <;> simp_all
  all_goals tauto

/-- C3 witness: the characterisation instantiated at a concrete filter and
event. -/
theorem shouldProcess_iff_witness :
    ShouldProcess (filterNew ["production"] ["kube-system"] ["OOMKilled"] DefaultEventThresholds)
        ⟨"production", "", "worker-79c6dd4b57-wcdzt", "OOMKilled", "Warning", 1⟩ = true ↔
      (((filterNew ["production"] ["kube-system"] ["OOMKilled"] DefaultEventThresholds).namespaces ≠ [] →
          effectiveNamespace ⟨"production", "", "worker-79c6dd4b57-wcdzt", "OOMKilled", "Warning", 1⟩ ∈
            (filterNew ["production"] ["kube-system"] ["OOMKilled"] DefaultEventThresholds).namespaces) ∧
        effectiveNamespace ⟨"production", "", "worker-79c6dd4b57-wcdzt", "OOMKilled", "Warning", 1⟩ ∉
          (filterNew ["production"] ["kube-system"] ["OOMKilled"] DefaultEventThresholds).excludeNamespaces ∧
        (⟨"production", "", "worker-79c6dd4b57-wcdzt", "OOMKilled", "Warning", 1⟩ : Event).reason ∈
          (filterNew ["production"] ["kube-system"] ["OOMKilled"] DefaultEventThresholds).eventReasons ∧
        (⟨"production", "", "worker-79c6dd4b57-wcdzt", "OOMKilled", "Warning", 1⟩ : Event).type = "Warning") :=
  shouldProcess_iff (filterNew ["production"] ["kube-system"] ["OOMKilled"] DefaultEventThresholds)
    ⟨"production", "", "worker-79c6dd4b57-wcdzt", "OOMKilled", "Warning", 1⟩

/-- C4: `Filter.MeetsThreshold e` is true iff the reason is absent from the
thresholds map or the event count reaches the configured threshold, and the
result depends only on the event's reason and count (no other state). -/
theorem meetsThreshold_iff_pure (f : Filter) (e e' : Event)
    (hr : e'.reason = e.reason) (hc : e'.count = e.count) :
    (MeetsThreshold f e = true ↔
      (mapLookup f.eventThresholds e.reason = none ∨
        ∃ t, mapLookup f.eventThresholds e.reason = some t ∧ t ≤ e.count)) ∧
    MeetsThreshold f e' = MeetsThreshold f e := by
  constructor
  · unfold MeetsThreshold
    cases h : mapLookup f.eventThresholds e.reason with
    | none => simp
    | some t => simp [h]
  · unfold MeetsThreshold
    rw [hr, hc]

/-- C4 witness: a concrete filter and events with equal reason and count. -/
theorem meetsThreshold_iff_pure_witness :
    (MeetsThreshold (filterNew [] [] [] DefaultEventThresholds)
        ⟨"", "ns", "pod-a", "Unhealthy", "Warning", 5⟩ = true ↔
      (mapLookup DefaultEventThresholds "Unhealthy" = none ∨
        ∃ t, mapLookup DefaultEventThresholds "Unhealthy" = some t ∧ t ≤ (5 : Int))) ∧
    MeetsThreshold (filterNew [] [] [] DefaultEventThresholds)
        ⟨"", "ns", "pod-b", "Unhealthy", "Warning", 5⟩ =
      MeetsThreshold (filterNew [] [] [] DefaultEventThresholds)
        ⟨"", "ns", "pod-a", "Unhealthy", "Warning", 5⟩ :=
  meetsThreshold_iff_pure (filterNew [] [] [] DefaultEventThresholds)
    ⟨"", "ns", "pod-a", "Unhealthy", "Warning", 5⟩
    ⟨"", "ns", "pod-b", "Unhealthy", "Warning", 5⟩ rfl rfl

/-- C5: `ExtractDeploymentName` strips the last two `-`-segments exactly when
there are at least three segments, the last segment is at most 6 characters of
lowercase letters and digits, and the penultimate segment is 5 to 12 characters
of lowercase letters and digits; otherwise the pod name is returned unchanged.
Examples: `worker-79c6dd4b57-wcdzt ↦ worker`, `redis-0` and `a-b-c` unchanged. -/
theorem extractDeploymentName_spec (s : String) :
    (ExtractDeploymentName s =
      (if 3 ≤ (splitOnChar '-' s.data).length ∧
          ((splitOnChar '-' s.data).getLastD []).length ≤ 6 ∧
          (∀ c ∈ (splitOnChar '-' s.data).getLastD [],
            ('a' ≤ c ∧ c ≤ 'z') ∨ ('0' ≤ c ∧ c ≤ '9')) ∧
          5 ≤ ((splitOnChar '-' s.data).dropLast.getLastD []).length ∧
          ((splitOnChar '-' s.data).dropLast.getLastD []).length ≤ 12 ∧
          (∀ c ∈ (splitOnChar '-' s.data).dropLast.getLastD [],
            ('a' ≤ c ∧ c ≤ 'z') ∨ ('0' ≤ c ∧ c ≤ '9'))
        then String.mk (joinDash (splitOnChar '-' s.data).dropLast.dropLast)
        else s)) ∧
    ExtractDeploymentName "worker-79c6dd4b57-wcdzt" = "worker" ∧
    ExtractDeploymentName "redis-0" = "redis-0" ∧
    ExtractDeploymentName "a-b-c" = "a-b-c" := by
  refine ⟨?_, by decide, by decide, by decide⟩
  have halnum : ∀ l : List Char, isAlphanumeric l = true ↔
      ∀ c ∈ l, ('a' ≤ c ∧ c ≤ 'z') ∨ ('0' ≤ c ∧ c ≤ '9') := by
    intro l; simp [isAlphanumeric, List.all_eq_true]
  simp only [ExtractDeploymentName]
  by_cases h1 : (splitOnChar '-' s.data).length < 3
  · rw [if_pos h1, if_neg ?side]
    case side => rintro ⟨h3, -⟩; omega
  · rw [if_neg h1]
    by_cases h2 : ((splitOnChar '-' s.data).getLastD []).length ≤ 6 ∧
        5 ≤ ((splitOnChar '-' s.data).dropLast.getLastD []).length ∧
        ((splitOnChar '-' s.data).dropLast.getLastD []).length ≤ 12
    · rw [if_pos h2]
      by_cases h3 : isAlphanumeric ((splitOnChar '-' s.data).getLastD []) = true ∧
          isAlphanumeric ((splitOnChar '-' s.data).dropLast.getLastD []) = true
      · rw [if_pos ⟨h3.1, h3.2⟩, if_pos ?side]
        case side =>
          exact ⟨by omega, h2.1, (halnum _).mp h3.1, h2.2.1, h2.2.2, (halnum _).mp h3.2⟩
      · rw [if_neg (fun hx => h3 ⟨hx.1, hx.2⟩), if_neg ?side]
        case side =>
          rintro ⟨-, -, ha, -, -, hb⟩
          exact h3 ⟨(halnum _).mpr ha, (halnum _).mpr hb⟩
    · rw [if_neg h2, if_neg ?side]
      case side =>
        rintro ⟨-, ha, -, hb, hc, -⟩
        exact h2 ⟨ha, hb, hc⟩

/-- C5 witness: the characterisation instantiated at the pod name `redis-0`. -/
theorem extractDeploymentName_spec_witness :
    (ExtractDeploymentName "redis-0" =
      (if 3 ≤ (splitOnChar '-' ("redis-0" : String).data).length ∧
          ((splitOnChar '-' ("redis-0" : String).data).getLastD []).length ≤ 6 ∧
          (∀ c ∈ (splitOnChar '-' ("redis-0" : String).data).getLastD [],
            ('a' ≤ c ∧ c ≤ 'z') ∨ ('0' ≤ c ∧ c ≤ '9')) ∧
          5 ≤ ((splitOnChar '-' ("redis-0" : String).data).dropLast.getLastD []).length ∧
          ((splitOnChar '-' ("redis-0" : String).data).dropLast.getLastD []).length ≤ 12 ∧
          (∀ c ∈ (splitOnChar '-' ("redis-0" : String).data).dropLast.getLastD [],
            ('a' ≤ c ∧ c ≤ 'z') ∨ ('0' ≤ c ∧ c ≤ '9'))
        then String.mk (joinDash (splitOnChar '-' ("redis-0" : String).data).dropLast.dropLast)
        else "redis-0")) ∧
    ExtractDeploymentName "worker-79c6dd4b57-wcdzt" = "worker" ∧
    ExtractDeploymentName "redis-0" = "redis-0" ∧
    ExtractDeploymentName "a-b-c" = "a-b-c" :=
  extractDeploymentName_spec "redis-0"

/-- C10: the deduplication key is the bare slash-concatenation, so the distinct
triples `("a", "b/c", "r")` and `("a/b", "c", "r")` collide: after the first
returns `isNew = true`, the second (within the window) returns `isNew = false`
with count 2. -/
theorem dedupKey_collision :
    (("a" ++ "/" ++ "b/c" ++ "/" ++ "r" : String) = "a/b" ++ "/" ++ "c" ++ "/" ++ "r") ∧
    (Check (dedupNew 300) "a" "b/c" "r" 0).1.isNew = true ∧
    (Check (Check (dedupNew 300) "a" "b/c" "r" 0).2 "a/b" "c" "r" 10).1.isNew = false ∧
    (Check (Check (dedupNew 300) "a" "b/c" "r" 0).2 "a/b" "c" "r" 10).1.count = 2 := by
  refine ⟨by decide, by decide, by decide, by decide⟩

/-- C2: full characterisation of `Deduplicator.Check` at the queried key.
On a live hit (`now < expiresAt`) the count is incremented, `lastSeen` becomes
`now`, `expiresAt` slides to `now + window` regardless of its prior value, and
`(false, count, firstSeen, now)` is returned; otherwise (no entry, or expired
entry) a fresh entry `count = 1, firstSeen = lastSeen = now,
expiresAt = now + window` is installed and `(true, 1, now, now)` is returned. -/
theorem check_spec (d : Deduplicator) (ns pod reason : String) (now : Int) :
    (match mapLookup d.entries (ns ++ "/" ++ pod ++ "/" ++ reason) with
      | some e =>
        if now < e.expiresAt then
          (Check d ns pod reason now).1 = ⟨false, e.count + 1, e.firstSeen, now⟩ ∧
          mapLookup (Check d ns pod reason now).2.entries
              (ns ++ "/" ++ pod ++ "/" ++ reason) =
            some { e with count := e.count + 1, lastSeen := now,
                          expiresAt := now + d.window }
        else
          (Check d ns pod reason now).1 = ⟨true, 1, now, now⟩ ∧
          mapLookup (Check d ns pod reason now).2.entries
              (ns ++ "/" ++ pod ++ "/" ++ reason) =
            some { key := ns ++ "/" ++ pod ++ "/" ++ reason,
                   expiresAt := now + d.window, count := 1,
                   firstSeen := now, lastSeen := now }
      | none =>
          (Check d ns pod reason now).1 = ⟨true, 1, now, now⟩ ∧
          mapLookup (Check d ns pod reason now).2.entries
              (ns ++ "/" ++ pod ++ "/" ++ reason) =
            some { key := ns ++ "/" ++ pod ++ "/" ++ reason,
                   expiresAt := now + d.window, count := 1,
                   firstSeen := now, lastSeen := now } : Prop) := by
  cases h : mapLookup d.entries (ns ++ "/" ++ pod ++ "/" ++ reason) with
  | some e =>
    dsimp only
    by_cases hexp : now < e.expiresAt
    · rw [if_pos hexp]
      have hc : Check d ns pod reason now =
          (⟨false, e.count + 1, e.firstSeen, now⟩,
           { d with entries := (mapSet d.entries (ns ++ "/" ++ pod ++ "/" ++ reason) ({ e with count := e.count + 1, lastSeen := now, expiresAt := now + d.window })) }) := by
        simp only [Check, h, if_pos hexp]
      rw [hc]
      exact ⟨rfl, mapLookup_mapSet_self _ _ _⟩
    · rw [if_neg hexp]
      have hc : Check d ns pod reason now =
          (⟨true, 1, now, now⟩,
           addEntry ({ d with entries := (mapErase d.entries (ns ++ "/" ++ pod ++ "/" ++ reason)) })
             (ns ++ "/" ++ pod ++ "/" ++ reason) now) := by
        simp only [Check, h, if_neg hexp]
      rw [hc]
      exact ⟨rfl, by simp [addEntry, mapLookup_mapSet_self]⟩
  | none =>
    dsimp only
    have hc : Check d ns pod reason now =
        (⟨true, 1, now, now⟩,
         addEntry d (ns ++ "/" ++ pod ++ "/" ++ reason) now) := by
      simp only [Check, h]
    rw [hc]
    exact ⟨rfl, by simp [addEntry, mapLookup_mapSet_self]⟩

/-- C8 (code-bug exhibit): a reachable run on which eviction does not remove
the oldest-inserted live entry.  Fill the cache to `MaxEntries` at time 0 with
window 10, let everything expire, `Check` key 0 at time 10 (the
expiry-on-access path deletes it from the map and re-inserts it, leaving the
stale first occurrence of key 0 at the head of `order`), then `Check` a brand
new key at time 10.  In the intermediate state, key 0 is live with
`firstSeen = lastSeen = 10` (the most recent insertion of all) and key 1 is
live since time 0; the capacity eviction nevertheless deletes key 0 while
key 1 survives — contradicting oldest-inserted-first eviction. -/
theorem eviction_bug_exhibit :
    Reachable (Check (Check (fillState MaxEntries) "" (grpKey 0) "r" 10).2
      "" "b" "s" 10).2 ∧
    mapLookup (Check (fillState MaxEntries) "" (grpKey 0) "r" 10).2.entries
      (fullKey 0) = some ⟨fullKey 0, 20, 1, 10, 10⟩ ∧
    mapLookup (Check (fillState MaxEntries) "" (grpKey 0) "r" 10).2.entries
      (fullKey 1) = some ⟨fullKey 1, 10, 1, 0, 0⟩ ∧
    mapLookup (Check (Check (fillState MaxEntries) "" (grpKey 0) "r" 10).2
      "" "b" "s" 10).2.entries (fullKey 0) = none ∧
    mapLookup (Check (Check (fillState MaxEntries) "" (grpKey 0) "r" 10).2
      "" "b" "s" 10).2.entries (fullKey 1) = some ⟨fullKey 1, 10, 1, 0, 0⟩ := by
  obtain ⟨hw, he, ho⟩ := fillState_spec MaxEntries (le_refl _)
  obtain ⟨h1, h2, h3, h4⟩ := eviction_oldest_violated (fillState MaxEntries) hw he ho
  exact ⟨Reachable.check "" "b" "s" 10
    (Reachable.check "" (grpKey 0) "r" 10 (fillState_reachable MaxEntries)),
    h1, h2, h3, h4⟩

/-- C6: across every interleaving of `Check` calls and `cleanup` sweeps, over
any keys and times, the number of live cache entries reported by `Size` never
exceeds `MaxEntries = 10000` — also with stale keys present in the FIFO `order`
list (the structural invariant `DedupInv` only requires live keys to occur in
`order`, which expiry-on-access re-insertions preserve). -/
theorem dedup_capacity (d : Deduplicator) (h : Reachable d) :
    Size d ≤ MaxEntries :=
  (reachable_inv d h).1

/-- C6 witness: the bound at a small concrete reachable state. -/
theorem dedup_capacity_witness :
    Size (Check (dedupNew 300) "a" "b" "r" 0).2 ≤ MaxEntries :=
  dedup_capacity _ (Reachable.check "a" "b" "r" 0 (Reachable.new 300))

/-- C7: with a non-negative window and a non-decreasing clock (both encoded in
`ReachableT`), every live entry satisfies
`firstSeen ≤ lastSeen ≤ expiresAt` and `count ≥ 1`, and every operation
(`Check` creation, `Check` hit, `cleanup`) preserves this. -/
theorem dedup_entry_invariant (d : Deduplicator) (t : Int) (h : ReachableT d t)
    (k : String) (e : Entry) (hk : mapLookup d.entries k = some e) :
    e.firstSeen ≤ e.lastSeen ∧ e.lastSeen ≤ e.expiresAt ∧ 1 ≤ e.count := by
  obtain ⟨-, hent⟩ := reachableT_wf d t h
  obtain ⟨h1, h2, h3, -⟩ := hent k e hk
  exact ⟨h1, h2, h3⟩

/-- C7 witness: the invariant at the concrete entry created by a first `Check`
at time 5 with window 300. -/
theorem dedup_entry_invariant_witness :
    (5 : Int) ≤ 5 ∧ (5 : Int) ≤ 305 ∧ (1 : Int) ≤ 1 :=
  dedup_entry_invariant (Check (dedupNew 300) "a" "b" "r" 5).2 5
    (ReachableT.check "a" "b" "r" 5 (by decide) (ReachableT.new 300 0 (by decide)))
    "a/b/r" ⟨"a/b/r", 305, 1, 5, 5⟩ (by decide)

/-- C1: for every event that passes `ShouldProcess`, `processEvent` drives the
deduplicator exactly through `Check (effective namespace, derived deployment,
reason)` — also when `MeetsThreshold` is false — and the `EventData` handed to
the sender carries the issue-creation flag `meetsThreshold && isNew`. -/
theorem processEvent_always_checks (f : Filter) (d : Deduplicator) (e : Event)
    (now : Int) (h : ShouldProcess f e = true) :
    (processEvent f d e now).2 =
      (Check d (effectiveNamespace e) (ExtractDeploymentName e.involvedName)
        e.reason now).2 ∧
    ∃ data, (processEvent f d e now).1 = some data ∧
      (data.meetsThreshold = true ↔
        (MeetsThreshold f e = true ∧
         (Check d (effectiveNamespace e) (ExtractDeploymentName e.involvedName)
           e.reason now).1.isNew = true)) := by
  unfold processEvent
  rw [if_neg (show ¬ShouldProcess f e = false by simp [h])]
  refine ⟨rfl, _, rfl, ?_⟩
  simp [Bool.and_eq_true]

/-- C1 witness: a concrete accepted event; the hypothesis is discharged by
evaluation. -/
theorem processEvent_always_checks_witness :
    (processEvent (filterNew [] ["kube-system"] ["OOMKilled"] DefaultEventThresholds)
        (dedupNew 300) ⟨"", "production", "worker-79c6dd4b57-wcdzt", "OOMKilled", "Warning", 1⟩ 0).2 =
      (Check (dedupNew 300)
        (effectiveNamespace ⟨"", "production", "worker-79c6dd4b57-wcdzt", "OOMKilled", "Warning", 1⟩)
        (ExtractDeploymentName "worker-79c6dd4b57-wcdzt") "OOMKilled" 0).2 ∧
    ∃ data,
      (processEvent (filterNew [] ["kube-system"] ["OOMKilled"] DefaultEventThresholds)
          (dedupNew 300) ⟨"", "production", "worker-79c6dd4b57-wcdzt", "OOMKilled", "Warning", 1⟩ 0).1 =
        some data ∧
      (data.meetsThreshold = true ↔
        (MeetsThreshold (filterNew [] ["kube-system"] ["OOMKilled"] DefaultEventThresholds)
            ⟨"", "production", "worker-79c6dd4b57-wcdzt", "OOMKilled", "Warning", 1⟩ = true ∧
         (Check (dedupNew 300)
            (effectiveNamespace ⟨"", "production", "worker-79c6dd4b57-wcdzt", "OOMKilled", "Warning", 1⟩)
            (ExtractDeploymentName "worker-79c6dd4b57-wcdzt") "OOMKilled" 0).1.isNew = true)) :=
  processEvent_always_checks _ _ _ _ (by decide)

/-- Helper for C9: if some item in the list splits at a colon into two pieces
whose count part fails to parse, the threshold loop aborts with an error. -/
theorem applyThresholdItems_error (items : List String) (acc : List (String × Int))
    (item pre post : String) (hmem : item ∈ items)
    (hsplit : splitN2Colon item = [pre, post])
    (herr : ∃ msg, parseThreshold (trimStr post) = .error msg) :
    ∃ msg, applyThresholdItems acc items = .error msg := by
  induction items generalizing acc with
  | nil => cases hmem
  | cons hd rest ih =>
    rcases List.mem_cons.mp hmem with rfl | hmem'
    · obtain ⟨msg, hmsg⟩ := herr
      refine ⟨"invalid threshold for " ++ trimStr pre ++ ": " ++ msg, ?_⟩
      unfold applyThresholdItems
      rw [hsplit]
      dsimp only
      rw [hmsg]
    · unfold applyThresholdItems
      cases hsp : splitN2Colon hd with
      | nil => exact ih acc hmem'
      | cons p0 t =>
        cases t with
        | nil => exact ih acc hmem'
        | cons p1 t2 =>
          cases t2 with
          | nil =>
            dsimp only
            cases hpt : parseThreshold (trimStr p1) with
            | error e => exact ⟨_, rfl⟩
            | ok c => exact ih _ hmem'
          | cons p2 t3 => exact ih acc hmem'

/-- C9 counterexample: `KUBE_SENTRY_THRESHOLDS="OOMKilled"` contains a malformed
item (no colon, so not of the form `Reason:N`), yet the threshold parsing of
`config.Load` silently skips it and succeeds with the default thresholds. -/
theorem loadThresholds_malformed_no_error :
    splitN2Colon "OOMKilled" = ["OOMKilled"] ∧
    loadEventThresholds "OOMKilled" = .ok DefaultEventThresholds :=
  ⟨by decide, rfl⟩

/-- C9 amended: only items that split at a colon into a reason and a count part
whose count fails integer parsing make `config.Load` return an error (and then
no configuration is produced: the `Except` carries only the error); items
without a colon are silently ignored. -/
theorem loadThresholds_colon_malformed_error (env item pre post : String)
    (hmem : item ∈ splitAndTrim env)
    (hsplit : splitN2Colon item = [pre, post])
    (herr : ∃ msg, parseThreshold (trimStr post) = .error msg) :
    ∃ msg, loadEventThresholds env = .error msg := by
  by_cases henv : env = ""
  · subst henv
    rw [show splitAndTrim "" = [] from rfl] at hmem
    cases hmem
  · unfold loadEventThresholds
    rw [if_neg henv]
    exact applyThresholdItems_error _ _ item pre post hmem hsplit herr

/-- C9 amended witness: `"Unhealthy:abc"` has a colon and an unparsable count,
so loading fails. -/
theorem loadThresholds_colon_malformed_error_witness :
    ∃ msg, loadEventThresholds "Unhealthy:abc" = .error msg :=
  loadThresholds_colon_malformed_error "Unhealthy:abc" "Unhealthy:abc" "Unhealthy" "abc"
    (by decide) (by decide) ⟨"expected integer, got abc", rfl⟩

end KubeSentry
